import Mathlib

/-!
Verification of the clauded multi-provider chat proxy.

Shallow embedding of the request-translation and resilience pipeline of
`model-proxy-server.js` and of the token-bucket rate limiter
(`lib/rate-limiter.js`, shipped as `src/unnamed/part_000`).

Strings are modelled as `List Char` (`Str`), JavaScript numbers used for
token arithmetic as `Nat`/`Int`, and the fractional token-bucket counters
as `ℚ` (JS floating point treated as exact arithmetic).  The compaction
buffer ratio 0.85 is modelled as the rational 17/20; every concrete input
used in a counterexample below was checked by hand to give the same
`Math.floor` result under binary64 as under exact arithmetic.
-/

namespace Clauded

/-- Model strings as lists of characters. -/
abbrev Str := List Char

/-- `estimateTokens` (model-proxy-server.js:435): `Math.ceil(text.length / 4)`,
with the `if (!text) return 0` guard subsumed by ceil(0/4)=0. -/
def estimateTokens (s : Str) : Nat := (s.length + 3) / 4

/-- Content block of an Anthropic-format message (the `block.type` variants the
proxy inspects: `text`, `image`, `tool_use`, `tool_result`).  The structured
JSON payloads (`input`, non-string `tool_result.content` after
`JSON.stringify`) are kept as serialized strings. -/
inductive Block
  | text (s : Str)
  | image
  | toolUse (id : Str) (name : Str) (input : Str)
  | toolResult (toolUseId : Str) (name : Option Str) (content : Str)
deriving DecidableEq

/-- `msg.content` is either a plain string or an array of blocks. -/
inductive MsgContent
  | str (s : Str)
  | blocks (bs : List Block)
deriving DecidableEq

/-- A message of an Anthropic request body. -/
structure Msg where
  role : Str
  content : MsgContent
deriving DecidableEq

/-- Tool specification as passed in `anthropicBody.tools` (the input schema is
kept as its serialized form). -/
structure ToolSpec where
  name : Str
  description : Str
  schema : Str
deriving DecidableEq

/-- The fields of an Anthropic request body that the proxy reads.  Optional
fields model JS `undefined`. -/
structure ABody where
  model : Str
  system : Option Str
  messages : List Msg
  max_tokens : Option Nat
  temperature : Option ℚ
  top_p : Option ℚ
  stream : Option Bool
  tools : List ToolSpec
deriving DecidableEq

/-- JS `x || d` for a numeric field: `undefined` and `0` are falsy. -/
def jsOrNat (x : Option Nat) (d : Nat) : Nat :=
  match x with
  | none => d
  | some 0 => d
  | some (n + 1) => n + 1

/-- JS `x || d` for a string field: `undefined` and `""` are falsy. -/
def jsOrStr (x : Option Str) (d : Str) : Str :=
  match x with
  | none => d
  | some [] => d
  | some (c :: s) => c :: s

/-! ## Provider dispatcher (`parseModel`, model-proxy-server.js:191-211) -/

/-- Default model used when `modelString` is falsy. -/
def defaultClaudeModel : Str := "claude-sonnet-4-5-20250929".data

/-- The four recognized provider prefixes of the anchored regex
`^(glm|featherless|google|anthropic)\/(.*)$`, each with its trailing slash. -/
def providerTags : List (Str × Str) :=
  [("glm".data, "glm/".data),
   ("featherless".data, "featherless/".data),
   ("google".data, "google/".data),
   ("anthropic".data, "anthropic/".data)]

/-- A JavaScript LineTerminator (ECMA-262): `.` in a regex without the `s`
flag matches any character except these, and `$` without the `m` flag
anchors only at end of input. -/
def isLineTerm (c : Char) : Bool :=
  c = '\n' || c = '\r' || c = '\u2028' || c = '\u2029'

/-- `parseModel(modelString)` (model-proxy-server.js:191-211).  A falsy
(empty) model string yields the default Anthropic model.  The anchored regex
`^(glm|featherless|google|anthropic)\/(.*)$` matches exactly when a
recognized `provider/` prefix is followed by a remainder free of line
terminators (`.` excludes them and the un-flagged `$` only matches at end of
input, so a remainder containing one makes the whole match fail); anything
the regex rejects falls back to provider `anthropic` with the full string as
model name. -/
def parseModel (s : Str) : Str × Str :=
  if s = [] then ("anthropic".data, defaultClaudeModel)
  else if "glm/".data.isPrefixOf s ∧
      (s.drop 4).all (fun c => !isLineTerm c) then
    ("glm".data, s.drop 4)
  else if "featherless/".data.isPrefixOf s ∧
      (s.drop 12).all (fun c => !isLineTerm c) then
    ("featherless".data, s.drop 12)
  else if "google/".data.isPrefixOf s ∧
      (s.drop 7).all (fun c => !isLineTerm c) then
    ("google".data, s.drop 7)
  else if "anthropic/".data.isPrefixOf s ∧
      (s.drop 10).all (fun c => !isLineTerm c) then
    ("anthropic".data, s.drop 10)
  else ("anthropic".data, s)

theorem isPrefixOf_append_self (l r : Str) : l.isPrefixOf (l ++ r) = true := by
  rw [List.isPrefixOf_iff_prefix]
  exact List.prefix_append l r

theorem regexNoMatch_of_prefix_false (t s : Str) (k : Nat)
    (h : t.isPrefixOf s = false) :
    ¬(t.isPrefixOf s = true ∧ (s.drop k).all (fun c => !isLineTerm c) = true) := by
  rintro ⟨h1, -⟩
  rw [h] at h1
  exact absurd h1 (by simp)

/-- C6 counterexample: the claim demands that every string without a
recognized prefix comes back as the full model name, but `parseModel` maps
the (falsy) empty string to the hard-coded default model, not to `""`. -/
theorem parseModel_empty_not_identity :
    parseModel [] = ("anthropic".data, defaultClaudeModel) ∧
    parseModel [] ≠ ("anthropic".data, ([] : Str)) := by
  constructor
  · rfl
  · decide

/-- C6 (amended): `parseModel` is total; a recognized `provider/` prefix
followed by a line-terminator-free remainder splits into the provider and
the rest after the first slash; every NON-EMPTY string the anchored regex
rejects (no recognized prefix, or a line terminator after it — `.` and the
un-flagged `$` exclude line terminators) falls back to provider `anthropic`
with the full string as model name; the empty (falsy) string falls back to
the default Anthropic model.  The last conjunct shows the line-terminator
fallback at `"glm/a\nb"`. -/
theorem parseModel_spec (rest : Str) (s : Str)
    (hrest : rest.all (fun c => !isLineTerm c) = true) (hs : s ≠ [])
    (hnm : ∀ p ∈ providerTags,
      ¬((Prod.snd p).isPrefixOf s = true ∧
        (s.drop (Prod.snd p).length).all (fun c => !isLineTerm c) = true)) :
    parseModel ("glm/".data ++ rest) = ("glm".data, rest) ∧
    parseModel ("featherless/".data ++ rest) = ("featherless".data, rest) ∧
    parseModel ("google/".data ++ rest) = ("google".data, rest) ∧
    parseModel ("anthropic/".data ++ rest) = ("anthropic".data, rest) ∧
    parseModel s = ("anthropic".data, s) ∧
    parseModel [] = ("anthropic".data, defaultClaudeModel) ∧
    parseModel "glm/a\nb".data = ("anthropic".data, "glm/a\nb".data) := by
  have hg : ("glm/".data ++ rest).drop 4 = rest :=
    List.drop_left "glm/".data rest
  have hf : ("featherless/".data ++ rest).drop 12 = rest :=
    List.drop_left "featherless/".data rest
  have hgo : ("google/".data ++ rest).drop 7 = rest :=
    List.drop_left "google/".data rest
  have han : ("anthropic/".data ++ rest).drop 10 = rest :=
    List.drop_left "anthropic/".data rest
  refine ⟨?_, ?_, ?_, ?_, ?_, rfl, by decide⟩
  · rw [parseModel, if_neg (by simp),
      if_pos ⟨isPrefixOf_append_self _ rest, by rw [hg]; exact hrest⟩, hg]
  · rw [parseModel, if_neg (by simp),
      if_neg (regexNoMatch_of_prefix_false "glm/".data
        ("featherless/".data ++ rest) 4 rfl),
      if_pos ⟨isPrefixOf_append_self _ rest, by rw [hf]; exact hrest⟩, hf]
  · rw [parseModel, if_neg (by simp),
      if_neg (regexNoMatch_of_prefix_false "glm/".data
        ("google/".data ++ rest) 4 rfl),
      if_neg (regexNoMatch_of_prefix_false "featherless/".data
        ("google/".data ++ rest) 12 rfl),
      if_pos ⟨isPrefixOf_append_self _ rest, by rw [hgo]; exact hrest⟩, hgo]
  · rw [parseModel, if_neg (by simp),
      if_neg (regexNoMatch_of_prefix_false "glm/".data
        ("anthropic/".data ++ rest) 4 rfl),
      if_neg (regexNoMatch_of_prefix_false "featherless/".data
        ("anthropic/".data ++ rest) 12 rfl),
      if_neg (regexNoMatch_of_prefix_false "google/".data
        ("anthropic/".data ++ rest) 7 rfl),
      if_pos ⟨isPrefixOf_append_self _ rest, by rw [han]; exact hrest⟩, han]
  · have h1 : ¬("glm/".data.isPrefixOf s = true ∧
        (s.drop 4).all (fun c => !isLineTerm c) = true) :=
      hnm _ (show ("glm".data, "glm/".data) ∈ providerTags by decide)
    have h2 : ¬("featherless/".data.isPrefixOf s = true ∧
        (s.drop 12).all (fun c => !isLineTerm c) = true) :=
      hnm _
        (show ("featherless".data, "featherless/".data) ∈ providerTags by decide)
    have h3 : ¬("google/".data.isPrefixOf s = true ∧
        (s.drop 7).all (fun c => !isLineTerm c) = true) :=
      hnm _ (show ("google".data, "google/".data) ∈ providerTags by decide)
    have h4 : ¬("anthropic/".data.isPrefixOf s = true ∧
        (s.drop 10).all (fun c => !isLineTerm c) = true) :=
      hnm _ (show ("anthropic".data, "anthropic/".data) ∈ providerTags by decide)
    rw [parseModel, if_neg hs, if_neg h1, if_neg h2, if_neg h3, if_neg h4]

/-- Witness for C6 at the spec's own scenarios:
`featherless/org/model-name` and `claude-x`. -/
theorem parseModel_spec_witness :
    ("claude-x".data ≠ ([] : Str)) ∧
    parseModel ("featherless/".data ++ "org/model-name".data) =
      ("featherless".data, "org/model-name".data) ∧
    parseModel "claude-x".data = ("anthropic".data, "claude-x".data) :=
  ⟨by decide,
   (parseModel_spec "org/model-name".data "claude-x".data (by decide)
      (by decide) (by decide)).2.1,
   (parseModel_spec "org/model-name".data "claude-x".data (by decide)
      (by decide) (by decide)).2.2.2.2.1⟩

/-! ## Rate limiter (`lib/rate-limiter.js`, shipped as `src/unnamed/part_000`) -/

/-- State of one provider's token bucket: the fractional token count and the
static per-minute quota (`this.limits[provider]`, used both as capacity and
refill rate).  The `lastRefill` timestamp is replaced by handing every step
the elapsed time since the previous refill. -/
structure RateBucket where
  tokens : ℚ
  limit : ℚ
deriving DecidableEq

/-- `refillTokens` (part_000:38-48):
`tokens = min(limit, tokens + elapsedSeconds/60 * limit)`. -/
def RateBucket.refill (b : RateBucket) (elapsedSec : ℚ) : RateBucket :=
  { b with tokens := min b.limit (b.tokens + elapsedSec / 60 * b.limit) }

/-- `consumeToken` (part_000:61-66): the falsy test `!this.buckets[provider]`
resets an exactly-zero bucket to `limits[provider] || 60` before the
decrement. -/
def RateBucket.consumeToken (b : RateBucket) : RateBucket :=
  if b.tokens = 0 then
    { b with tokens := (if b.limit = 0 then 60 else b.limit) - 1 }
  else { b with tokens := b.tokens - 1 }

/-- One observable step of a `waitForToken` history.  `refill e` is a poll
iteration whose `canProceed` found no token (or an external refill);
`acquire e`
is the iteration that, after its own refill, finds `tokens ≥ 1` and consumes
one (part_000:72-88: every path refills first because `canProceed` calls
`refillTokens`, and `consumeToken` runs only once `canProceed` is true). -/
inductive LimiterStep
  | refill (elapsedSec : ℚ)
  | acquire (elapsedSec : ℚ)

def LimiterStep.elapsed : LimiterStep → ℚ
  | .refill e => e
  | .acquire e => e

def RateBucket.step (b : RateBucket) : LimiterStep → RateBucket
  | .refill e => b.refill e
  | .acquire e =>
      let b' := b.refill e
      if 1 ≤ b'.tokens then b'.consumeToken else b'

def RateBucket.run (b : RateBucket) : List LimiterStep → RateBucket
  | [] => b
  | s :: rest => (b.step s).run rest

/-- The per-provider requests-per-minute quotas configured at
model-proxy-server.js:29-34. -/
def rateLimiterLimits : List (Str × ℚ) :=
  [("glm".data, 60), ("featherless".data, 100),
   ("google".data, 60), ("anthropic".data, 50)]

theorem RateBucket.step_limit (b : RateBucket) (s : LimiterStep) :
    (b.step s).limit = b.limit := by
  cases s with
  | refill e => rfl
  | acquire e =>
      simp only [RateBucket.step]
      split
      · simp only [RateBucket.consumeToken]
        split <;> rfl
      · rfl

theorem RateBucket.step_invariant (b : RateBucket) (s : LimiterStep)
    (hcap : 1 ≤ b.limit) (h0 : 0 ≤ b.tokens) (h1 : b.tokens ≤ b.limit)
    (he : 0 ≤ s.elapsed) :
    0 ≤ (b.step s).tokens ∧ (b.step s).tokens ≤ b.limit := by
  have hlim0 : (0 : ℚ) ≤ b.limit := le_trans zero_le_one hcap
  have hrefill : ∀ e : ℚ, 0 ≤ e →
      0 ≤ (b.refill e).tokens ∧ (b.refill e).tokens ≤ b.limit := by
    intro e hee
    refine ⟨le_min hlim0 ?_, min_le_left _ _⟩
    have : 0 ≤ e / 60 * b.limit := by positivity
    linarith
  cases s with
  | refill e => exact hrefill e he
  | acquire e =>
      have hb' := hrefill e he
      simp only [RateBucket.step]
      split
      · rename_i hge
        have hne : (b.refill e).tokens ≠ 0 := by
          intro h
          rw [h] at hge
          exact absurd hge (by norm_num)
        simp only [RateBucket.consumeToken, if_neg hne]
        constructor
        · linarith [hge]
        · have := hb'.2
          simp only [RateBucket.refill] at this ⊢
          linarith
      · exact hb'

/-- C2: for every configured provider and every finite interleaving of
non-negative-elapsed refills and `waitForToken` admissions, the bucket's
token count stays within `[0, capacity]`; in particular it is non-negative
immediately after each consume (every prefix of a history is itself a
history). -/
theorem rateBucket_tokens_bounded (q : Str × ℚ) (hq : q ∈ rateLimiterLimits)
    (steps : List LimiterStep) (hel : ∀ s ∈ steps, 0 ≤ s.elapsed) :
    0 ≤ ((RateBucket.mk q.2 q.2).run steps).tokens ∧
      ((RateBucket.mk q.2 q.2).run steps).tokens ≤ q.2 := by
  have hcap : 1 ≤ q.2 := by
    fin_cases hq <;> norm_num
  suffices h : ∀ (steps : List LimiterStep) (b : RateBucket),
      b.limit = q.2 → 1 ≤ b.limit → 0 ≤ b.tokens → b.tokens ≤ b.limit →
      (∀ s ∈ steps, 0 ≤ s.elapsed) →
      0 ≤ (b.run steps).tokens ∧ (b.run steps).tokens ≤ q.2 by
    exact h steps (RateBucket.mk q.2 q.2) rfl hcap (le_trans zero_le_one hcap)
      le_rfl hel
  intro steps
  induction steps with
  | nil =>
      intro b hbl _ h0 h1 _
      exact ⟨h0, hbl ▸ h1⟩
  | cons s rest ih =>
      intro b hbl hc h0 h1 hel'
      have hstep := RateBucket.step_invariant b s hc h0 h1
        (hel' s (List.mem_cons_self s rest))
      have hlim := RateBucket.step_limit b s
      exact ih (b.step s) (hlim ▸ hbl) (hlim ▸ hc) hstep.1 (hlim ▸ hstep.2)
        (fun t ht => hel' t (List.mem_cons_of_mem s ht))

/-- Witness for C2: the `glm` bucket (quota 60) through an
acquire/refill/acquire history. -/
theorem rateBucket_tokens_bounded_witness :
    0 ≤ ((RateBucket.mk 60 60).run
        [LimiterStep.acquire 0, LimiterStep.refill 1, LimiterStep.acquire 0]).tokens ∧
      ((RateBucket.mk 60 60).run
        [LimiterStep.acquire 0, LimiterStep.refill 1, LimiterStep.acquire 0]).tokens ≤ 60 :=
  rateBucket_tokens_bounded ("glm".data, 60) (by decide)
    [LimiterStep.acquire 0, LimiterStep.refill 1, LimiterStep.acquire 0]
    (by intro s hs; fin_cases hs <;> norm_num [LimiterStep.elapsed])

/-- `waitForToken`'s poll arithmetic (part_000:80-84):
`tokensPerMs = limits/60000`, `waitTime = Math.ceil(1 / tokensPerMs)`. -/
def waitTimeMs (q : ℚ) : ℤ := ⌈(1 : ℚ) / (q / 60000)⌉

/-- The sleep actually performed: `Math.min(waitTime, 1000)` (part_000:84). -/
def pollSleepMs (q : ℚ) : ℤ := min (waitTimeMs q) 1000

/-- C5 counterexample: for the quota `Q = 1/2 > 0`, waiting `ceil(60000/Q)` ms
from an empty bucket refills to `min(Q, 1) = 1/2 < 1`, so no token is
admittable: the claim fails for per-minute quotas below 1. -/
theorem refill_after_wait_lt_one :
    (0 : ℚ) < 1 / 2 ∧
    ((RateBucket.mk 0 (1 / 2)).refill
        ((⌈(60000 : ℚ) / (1 / 2)⌉ : ℚ) / 1000)).tokens < 1 := by
  constructor
  · norm_num
  · have h : ⌈(60000 : ℚ) / (1 / 2)⌉ = (120000 : ℤ) := by
      norm_num
    rw [RateBucket.refill, h]
    norm_num

/-- C5 (amended to quotas `Q ≥ 1`, which covers every configured provider):
waiting `ceil(60000/Q)` ms from an empty bucket refills to at least one
admittable token, and the poll loop sleeps for
`min(ceil(60000/Q), 1000)` ms. -/
theorem refill_after_wait_admits (q : ℚ) (hq : 1 ≤ q) :
    1 ≤ ((RateBucket.mk 0 q).refill ((waitTimeMs q : ℚ) / 1000)).tokens ∧
      pollSleepMs q = min ⌈(60000 : ℚ) / q⌉ 1000 := by
  have hq0 : 0 < q := lt_of_lt_of_le zero_lt_one hq
  have hwt : waitTimeMs q = ⌈(60000 : ℚ) / q⌉ := by
    rw [waitTimeMs, one_div, inv_div]
  constructor
  · rw [RateBucket.refill]
    refine le_min hq ?_
    have hceil : (60000 : ℚ) / q ≤ ((waitTimeMs q : ℤ) : ℚ) := by
      rw [hwt]
      exact Int.le_ceil _
    have hmul : (60000 : ℚ) ≤ ((waitTimeMs q : ℤ) : ℚ) * q := by
      have := mul_le_mul_of_nonneg_right hceil (le_of_lt hq0)
      rwa [div_mul_cancel₀ _ (ne_of_gt hq0)] at this
    have : (1 : ℚ) ≤ ((waitTimeMs q : ℤ) : ℚ) / 1000 / 60 * q := by
      rw [div_div, div_mul_eq_mul_div,
        le_div_iff₀ (by norm_num : (0:ℚ) < 1000 * 60)]
      linarith
    linarith
  · rw [pollSleepMs, hwt]

/-- Witness for C5 at the `glm`/`google` quota `Q = 60`. -/
theorem refill_after_wait_admits_witness :
    1 ≤ ((RateBucket.mk 0 60).refill ((waitTimeMs 60 : ℚ) / 1000)).tokens ∧
      pollSleepMs 60 = min ⌈(60000 : ℚ) / 60⌉ 1000 :=
  refill_after_wait_admits 60 (by norm_num)

/-! ## Model limit tables and lookups (model-proxy-server.js:364-457,716-734) -/

/-- JS `hay.includes(needle)`: substring containment. -/
def strIncludes (hay needle : Str) : Bool :=
  match hay with
  | [] => needle.isPrefixOf []
  | _ :: rest => needle.isPrefixOf hay || strIncludes rest needle

/-- `modelName.split('/').pop()`: the segment after the last slash (the whole
string when no slash occurs; empty for a trailing slash). -/
def lastSeg (s : Str) : Str :=
  s.foldl (fun acc c => if c = '/' then [] else acc ++ [c]) []

/-- `MODEL_LIMITS` (model-proxy-server.js:364-394) in insertion order.  The
`default` entry is listed too because the `Object.entries` fallback loop also
visits it. -/
def MODEL_LIMITS : List (Str × Nat) :=
  [("glm-4.7".data, 8192), ("glm-4".data, 8192), ("glm-4-plus".data, 8192),
   ("glm-4-air".data, 8192),
   ("dphn/Dolphin-Mistral-24B-Venice-Edition".data, 4096),
   ("huihui-ai/Qwen2.5-72B-Instruct-abliterated".data, 4096),
   ("WhiteRabbitNeo/WhiteRabbitNeo-V3-7B".data, 4096),
   ("mlabonne/Meta-Llama-3.1-8B-Instruct-abliterated".data, 4096),
   ("huihui-ai/Llama-3.3-70B-Instruct-abliterated".data, 4096),
   ("gemini-pro".data, 8192), ("gemini-1.5-pro".data, 8192),
   ("gemini-2.0-flash".data, 8192), ("gemini-2.0-flash-exp".data, 8192),
   ("claude-opus-4-5".data, 8192), ("claude-4.5-opus-20251101".data, 8192),
   ("claude-sonnet-4-5".data, 8192), ("claude-4.5-sonnet-20251001".data, 8192),
   ("claude-haiku-4-5".data, 8192), ("claude-haiku-4-5-20250919".data, 8192),
   ("default".data, 4096)]

/-- `MODEL_CONTEXT_LIMITS` (model-proxy-server.js:400-430) in insertion
order. -/
def MODEL_CONTEXT_LIMITS : List (Str × Nat) :=
  [("glm-4.7".data, 131072), ("glm-4".data, 131072),
   ("glm-4-plus".data, 131072), ("glm-4-air".data, 131072),
   ("dphn/Dolphin-Mistral-24B-Venice-Edition".data, 32768),
   ("huihui-ai/Qwen2.5-72B-Instruct-abliterated".data, 32768),
   ("WhiteRabbitNeo/WhiteRabbitNeo-V3-7B".data, 8192),
   ("mlabonne/Meta-Llama-3.1-8B-Instruct-abliterated".data, 8192),
   ("huihui-ai/Llama-3.3-70B-Instruct-abliterated".data, 131072),
   ("gemini-pro".data, 32768), ("gemini-1.5-pro".data, 1048576),
   ("gemini-2.0-flash".data, 1048576), ("gemini-2.0-flash-exp".data, 1048576),
   ("claude-opus-4-5".data, 200000), ("claude-4.5-opus-20251101".data, 200000),
   ("claude-sonnet-4-5".data, 200000),
   ("claude-4.5-sonnet-20251001".data, 200000),
   ("claude-haiku-4-5".data, 200000),
   ("claude-haiku-4-5-20250919".data, 200000),
   ("default".data, 8192)]

/-- Exact-key lookup, `TABLE[cleanModel]`. -/
def lookupExact (tbl : List (Str × Nat)) (k : Str) : Option Nat :=
  (tbl.find? (fun p => p.1 == k)).map (fun p => p.2)

/-- The `Object.entries` fallback loop:
`cleanModel.includes(key) || key.includes(cleanModel)`. -/
def lookupLoose (tbl : List (Str × Nat)) (k : Str) : Option Nat :=
  (tbl.find? (fun p => strIncludes k p.1 || strIncludes p.1 k)).map
    (fun p => p.2)

/-- `getModelLimit` (model-proxy-server.js:716-734): max output tokens. -/
def getModelLimit (modelName : Str) : Nat :=
  let cleanModel := lastSeg modelName
  match lookupExact MODEL_LIMITS cleanModel with
  | some v => v
  | none =>
      match lookupLoose MODEL_LIMITS cleanModel with
      | some v => v
      | none => 4096

/-- `getContextLimit` (model-proxy-server.js:443-457): total context
tokens. -/
def getContextLimit (modelName : Str) : Nat :=
  let cleanModel := lastSeg modelName
  match lookupExact MODEL_CONTEXT_LIMITS cleanModel with
  | some v => v
  | none =>
      match lookupLoose MODEL_CONTEXT_LIMITS cleanModel with
      | some v => v
      | none => 8192

/-! ## Context-limit check (model-proxy-server.js:463-504) -/

structure ContextCheck where
  ok : Bool
  estimated : Nat
  limit : Nat
deriving DecidableEq

/-- Token estimate of one message as summed by `checkContextLimit`
(model-proxy-server.js:476-488): string content, `text` blocks and
`tool_result` blocks count; `image` (and any other) blocks do not.
A structured `tool_result` payload is counted through its serialized form. -/
def checkMsgTokens (m : Msg) : Nat :=
  match m.content with
  | .str s => estimateTokens s
  | .blocks bs =>
      (bs.map (fun b =>
        match b with
        | .text s => estimateTokens s
        | .toolResult _ _ c => estimateTokens c
        | _ => 0)).sum

/-- `checkContextLimit` (model-proxy-server.js:463-504). -/
def checkContextLimit (body : ABody) : ContextCheck :=
  let contextLimit := getContextLimit body.model
  let sysTokens := match body.system with
    | none => 0
    | some s => estimateTokens s
  let msgTokens := (body.messages.map checkMsgTokens).sum
  let maxTokens := jsOrNat body.max_tokens 4096
  let totalTokens := sysTokens + msgTokens + maxTokens
  if totalTokens > contextLimit then ⟨false, totalTokens, contextLimit⟩
  else ⟨true, totalTokens, contextLimit⟩

/-! ## Context compaction (model-proxy-server.js:506-711) -/

/-- `extractMessageText` (model-proxy-server.js:514-525): only `text` blocks
contribute; everything else (tool results, images, tool uses) yields
nothing. -/
def extractMessageText (m : Msg) : Str :=
  match m.content with
  | .str s => s
  | .blocks bs =>
      List.intercalate ['\n']
        (bs.filterMap (fun b => match b with | Block.text s => some s | _ => none))

/-- The compaction engine's per-message estimate:
`estimateTokens(extractMessageText(msg))`. -/
def compactMsgTokens (m : Msg) : Nat := estimateTokens (extractMessageText m)

def msgsTokens (ms : List Msg) : Nat := (ms.map compactMsgTokens).sum

/-- `COMPACTION_CONFIG` defaults (model-proxy-server.js:101-125). -/
def tailReserve : Nat := 6
def responseTokenReserve : Nat := 2048
def minContextTokens : Nat := 1024
def summaryMaxTokens : Nat := 512
def compactionEnabled : Bool := true

def natStr (n : Nat) : Str := (Nat.repr n).data

def lowerStr (s : Str) : Str := s.map Char.toLower

/-- Insertion-ordered set insertion (JS `Set` iterates in insertion
order). -/
def setAdd (s : List Str) (x : Str) : List Str :=
  if x ∈ s then s else s ++ [x]

def setAddAll (s : List Str) (xs : List Str) : List Str := xs.foldl setAdd s

/-- Accumulator of `createLocalSummary`'s message loop
(model-proxy-server.js:542-570). -/
structure SummaryAcc where
  actionCount : Nat
  toolUseCount : Nat
  filesMentioned : List Str
  keyTopics : List Str

/-- One iteration of the summary loop.  The two regex extractions over the
message text (file-path-like tokens, action-verb keywords) are abstracted as
the parameters `fm` and `am`; no claim depends on their output. -/
def summaryStep (fm am : Str → List Str) (acc : SummaryAcc) (m : Msg) :
    SummaryAcc :=
  let text := extractMessageText m
  let acc1 := match m.content with
    | .str _ => acc
    | .blocks bs =>
        bs.foldl (fun a b =>
          match b with
          | Block.toolUse _ nm _ =>
              { a with toolUseCount := a.toolUseCount + 1,
                       keyTopics := if nm ≠ [] then setAdd a.keyTopics nm
                                    else a.keyTopics }
          | Block.toolResult _ _ _ => { a with actionCount := a.actionCount + 1 }
          | _ => a) acc
  let acc2 := { acc1 with
    filesMentioned := setAddAll acc1.filesMentioned ((fm text).take 5) }
  { acc2 with keyTopics := setAddAll acc2.keyTopics ((am text).map lowerStr) }

/-- The `Last request:` line (model-proxy-server.js:589-596). -/
def lastUserLine (messages : List Msg) : List Str :=
  match messages.reverse.find? (fun m => m.role == "user".data) with
  | none => []
  | some m =>
      let text := extractMessageText m
      if text = [] then []
      else
        ["Last request: \"".data ++
          (text.take 200).map (fun c => if c = '\n' then ' ' else c) ++
          (if text.length > 200 then "...".data else []) ++ "\"".data]

/-- The summary lines of a non-empty removed-message set
(model-proxy-server.js:536-596). -/
def summaryLines (fm am : Str → List Str) (messages : List Msg) : List Str :=
  let acc := messages.foldl (summaryStep fm am) ⟨0, 0, [], []⟩
  ["[COMPACTED CONTEXT: ".data ++ natStr messages.length ++ " messages]".data]
    ++ (if acc.toolUseCount > 0 then
          ["Tools used: ".data ++ natStr acc.toolUseCount] else [])
    ++ (if acc.actionCount > 0 then
          ["Actions completed: ".data ++ natStr acc.actionCount] else [])
    ++ (if acc.filesMentioned ≠ [] then
          ["Files: ".data ++
            List.intercalate ", ".data (acc.filesMentioned.take 10)] else [])
    ++ (if acc.keyTopics ≠ [] then
          ["Topics: ".data ++
            List.intercalate ", ".data (acc.keyTopics.take 10)] else [])
    ++ lastUserLine messages

/-- `createLocalSummary` (model-proxy-server.js:531-599). -/
def createLocalSummary (fm am : Str → List Str) (messages : List Msg) : Str :=
  if messages = [] then "[No previous context]".data
  else List.intercalate ['\n'] (summaryLines fm am messages)

/-- The progressive-removal loop of `compactMessages`
(model-proxy-server.js:653-658): shift the oldest message into the
to-summarize set while the retained-older estimate stays above `target`.
Returns `(toSummarize, remaining olderMessages, olderTokens accumulator)`. -/
def compactLoop (target : ℤ) : List Msg → ℤ → List Msg × List Msg × ℤ
  | [], t => ([], [], t)
  | m :: rest, t =>
      if t > target then
        let r := compactLoop target rest (t - compactMsgTokens m)
        (m :: r.1, r.2.1, r.2.2)
      else ([], m :: rest, t)

structure CompactResult where
  messages : List Msg
  compacted : Bool
  statsOriginal : Nat
  statsFinal : Nat
  statsRemoved : Nat
  statsSummarized : Option Nat
  statsTokens : Option ℤ
  statsOriginalTokens : Option ℤ
  statsFinalTokens : Option ℤ

/-- `availableTokens` (model-proxy-server.js:618-620):
`Math.floor(contextLimit * 0.85) - systemTokens - maxTokens`, the
0.85 buffer ratio taken as the exact 17/20. -/
def availableTokensFor (body : ABody) (contextLimit : Nat) : ℤ :=
  ((17 * contextLimit) / 20 : Nat) -
    (estimateTokens (jsOrStr body.system []) : ℤ) -
    (jsOrNat body.max_tokens responseTokenReserve : ℤ)

/-- The stats object of the two no-op exits of `compactMessages`
(model-proxy-server.js:610-614 and 632-636). -/
def noopResult (msgs : List Msg) (tok : Option ℤ) : CompactResult :=
  ⟨msgs, false, msgs.length, msgs.length, 0, none, tok, none, none⟩

def coreTail (body : ABody) : Nat := min tailReserve body.messages.length

/-- `messages.slice(0, -tailCount)`. -/
def coreOlder (body : ABody) : List Msg :=
  body.messages.take (body.messages.length - coreTail body)

/-- `messages.slice(-tailCount)`. -/
def coreRecent (body : ABody) : List Msg :=
  body.messages.drop (body.messages.length - coreTail body)

/-- `targetOlderTokens` (model-proxy-server.js:646):
`Math.max(availableTokens - recentTokens - summaryMaxTokens,
minContextTokens)`. -/
def coreTarget (body : ABody) (contextLimit : Nat) : ℤ :=
  max (availableTokensFor body contextLimit - msgsTokens (coreRecent body) -
        (summaryMaxTokens : ℤ))
    (minContextTokens : ℤ)

def coreLoop (body : ABody) (contextLimit : Nat) : List Msg × List Msg × ℤ :=
  compactLoop (coreTarget body contextLimit) (coreOlder body)
    (msgsTokens (coreOlder body))

/-- The compacting branch of `compactMessages`
(model-proxy-server.js:639-686). -/
def compactCore (fm am : Str → List Str) (body : ABody) (contextLimit : Nat) :
    CompactResult :=
  { messages :=
      Msg.mk "user".data
          (MsgContent.str (createLocalSummary fm am (coreLoop body contextLimit).1))
        :: (coreLoop body contextLimit).2.1 ++ coreRecent body,
    compacted := true,
    statsOriginal := body.messages.length,
    statsFinal :=
      (Msg.mk "user".data
          (MsgContent.str (createLocalSummary fm am (coreLoop body contextLimit).1))
        :: (coreLoop body contextLimit).2.1 ++ coreRecent body).length,
    statsRemoved := (coreLoop body contextLimit).1.length,
    statsSummarized := some (coreLoop body contextLimit).1.length,
    statsTokens := none,
    statsOriginalTokens := some (msgsTokens body.messages),
    statsFinalTokens := some
      ((estimateTokens (createLocalSummary fm am (coreLoop body contextLimit).1) : ℤ)
        + (coreLoop body contextLimit).2.2 + (msgsTokens (coreRecent body) : ℤ)) }

/-- `compactMessages` (model-proxy-server.js:605-686). -/
def compactMessages (fm am : Str → List Str) (body : ABody)
    (contextLimit : Nat) : CompactResult :=
  if compactionEnabled = false ∨ body.messages.length ≤ tailReserve then
    noopResult body.messages none
  else if (msgsTokens body.messages : ℤ) ≤ availableTokensFor body contextLimit
  then noopResult body.messages (some (msgsTokens body.messages))
  else compactCore fm am body contextLimit

structure CompactionApplied where
  body : ABody
  compacted : Bool
  result : CompactResult

/-- `applyCompaction` (model-proxy-server.js:692-711). -/
def applyCompaction (fm am : Str → List Str) (body : ABody)
    (contextLimit : Nat) : CompactionApplied :=
  let r := compactMessages fm am body contextLimit
  if r.compacted then ⟨{ body with messages := r.messages }, true, r⟩
  else ⟨body, false, r⟩

/-! ## Compaction theorems -/

/-- A trivial instantiation of the two abstracted summary-regex extractors. -/
def noMatches : Str → List Str := fun _ => []

theorem msgsTokens_append (a b : List Msg) :
    msgsTokens (a ++ b) = msgsTokens a + msgsTokens b := by
  simp [msgsTokens]

theorem compactLoop_append (tg : ℤ) (l : List Msg) : ∀ t : ℤ,
    (compactLoop tg l t).1 ++ (compactLoop tg l t).2.1 = l := by
  induction l with
  | nil => intro t; rfl
  | cons m rest ih =>
      intro t
      rw [compactLoop]
      split
      · simpa using ih (t - compactMsgTokens m)
      · rfl

/-- C9: a message list at or below `tailReserve` short-circuits
`compactMessages` to a no-op (messages unchanged, `compacted = false`), so
compaction is idempotent on such bodies. -/
theorem compact_noop_short (fm am : Str → List Str) (body : ABody) (cl : Nat)
    (h : body.messages.length ≤ tailReserve) :
    (compactMessages fm am body cl).messages = body.messages ∧
    (compactMessages fm am body cl).compacted = false ∧
    (applyCompaction fm am body cl).body = body ∧
    (applyCompaction fm am ((applyCompaction fm am body cl).body) cl).body =
      (applyCompaction fm am body cl).body := by
  have hc : compactMessages fm am body cl = noopResult body.messages none := by
    rw [compactMessages, if_pos (Or.inr h)]
  have ha : applyCompaction fm am body cl =
      ⟨body, false, noopResult body.messages none⟩ := by
    rw [applyCompaction, hc]
    rfl
  refine ⟨by rw [hc]; rfl, by rw [hc]; rfl, by rw [ha], ?_⟩
  rw [ha]
  show (applyCompaction fm am body cl).body = body
  rw [ha]

/-- Witness for C9: a three-message conversation. -/
def c9body : ABody :=
  ⟨"featherless/WhiteRabbitNeo/WhiteRabbitNeo-V3-7B".data, none,
   List.replicate 3 ⟨"user".data, MsgContent.str "hello".data⟩,
   some 1024, none, none, none, []⟩

theorem compact_noop_short_witness :
    (compactMessages noMatches noMatches c9body 8192).messages =
        c9body.messages ∧
    (compactMessages noMatches noMatches c9body 8192).compacted = false ∧
    (applyCompaction noMatches noMatches c9body 8192).body = c9body ∧
    (applyCompaction noMatches noMatches
          ((applyCompaction noMatches noMatches c9body 8192).body) 8192).body =
      (applyCompaction noMatches noMatches c9body 8192).body :=
  compact_noop_short noMatches noMatches c9body 8192 (by decide)

/-- C3: whenever compaction fires, the input is strictly longer than
`tailReserve` and the last `tailReserve` input messages reappear verbatim, in
order, as the final `tailReserve` messages of the output. -/
theorem compact_preserves_tail (fm am : Str → List Str) (body : ABody)
    (cl : Nat) (h : (compactMessages fm am body cl).compacted = true) :
    tailReserve < body.messages.length ∧
    (compactMessages fm am body cl).messages.drop
        ((compactMessages fm am body cl).messages.length - tailReserve) =
      body.messages.drop (body.messages.length - tailReserve) := by
  by_cases h1 : compactionEnabled = false ∨ body.messages.length ≤ tailReserve
  · rw [compactMessages, if_pos h1] at h
    exact absurd h (by simp [noopResult])
  by_cases h2 : (msgsTokens body.messages : ℤ) ≤ availableTokensFor body cl
  · rw [compactMessages, if_neg h1, if_pos h2] at h
    exact absurd h (by simp [noopResult])
  have hgt : tailReserve < body.messages.length := by
    push_neg at h1
    exact h1.2
  have hcm : compactMessages fm am body cl = compactCore fm am body cl := by
    rw [compactMessages, if_neg h1, if_neg h2]
  refine ⟨hgt, ?_⟩
  rw [hcm]
  have htc : coreTail body = tailReserve := min_eq_left (le_of_lt hgt)
  have hrlen : (coreRecent body).length = tailReserve := by
    rw [coreRecent, List.length_drop, htc]
    omega
  show ((Msg.mk "user".data
        (MsgContent.str (createLocalSummary fm am (coreLoop body cl).1))
      :: (coreLoop body cl).2.1) ++ coreRecent body).drop
      (((Msg.mk "user".data
          (MsgContent.str (createLocalSummary fm am (coreLoop body cl).1))
        :: (coreLoop body cl).2.1) ++ coreRecent body).length - tailReserve) =
    body.messages.drop (body.messages.length - tailReserve)
  have hlen : ((Msg.mk "user".data
        (MsgContent.str (createLocalSummary fm am (coreLoop body cl).1))
      :: (coreLoop body cl).2.1) ++ coreRecent body).length - tailReserve =
      (Msg.mk "user".data
        (MsgContent.str (createLocalSummary fm am (coreLoop body cl).1))
      :: (coreLoop body cl).2.1).length := by
    rw [List.length_append, hrlen]
    omega
  rw [hlen, List.drop_left]
  rw [coreRecent, htc]

/-- C1 counterexample body: seven 40-character messages with a request for
6900 output tokens against the 8192-token context window leave a 63-token
budget; the removal loop then finds the single pre-tail message (10 tokens)
already below the 1024-token floor and removes nothing, yet a synthetic
summary message is still prepended, raising the estimate from 70 to 76. -/
def c1body : ABody :=
  ⟨"featherless/WhiteRabbitNeo/WhiteRabbitNeo-V3-7B".data, none,
   List.replicate 7 ⟨"user".data, MsgContent.str (List.replicate 40 'a')⟩,
   some 6900, none, none, none, []⟩

/-- C1 counterexample: compaction CAN increase the estimated token count. -/
theorem compaction_can_increase_estimate :
    msgsTokens c1body.messages <
      msgsTokens ((compactMessages noMatches noMatches c1body 8192).messages) ∧
    msgsTokens c1body.messages = 70 ∧
    msgsTokens ((compactMessages noMatches noMatches c1body 8192).messages) =
      76 := by
  decide

/-- C1 (amended): a non-compacting call leaves the estimate unchanged, and a
compacting call increases it by at most the estimated size of the single
synthetic summary message it prepends (it can therefore exceed the input
estimate exactly when the summary outweighs the removed prefix). -/
theorem compact_estimate_bound (fm am : Str → List Str) (body : ABody)
    (cl : Nat) :
    ((compactMessages fm am body cl).compacted = false →
      (compactMessages fm am body cl).messages = body.messages) ∧
    ((compactMessages fm am body cl).compacted = true →
      ∃ s rest,
        (compactMessages fm am body cl).messages =
          Msg.mk "user".data (MsgContent.str s) :: rest ∧
        msgsTokens (compactMessages fm am body cl).messages ≤
          msgsTokens body.messages + estimateTokens s) := by
  by_cases h1 : compactionEnabled = false ∨ body.messages.length ≤ tailReserve
  · rw [compactMessages, if_pos h1]
    exact ⟨fun _ => rfl, fun hh => absurd hh (by simp [noopResult])⟩
  by_cases h2 : (msgsTokens body.messages : ℤ) ≤ availableTokensFor body cl
  · rw [compactMessages, if_neg h1, if_pos h2]
    exact ⟨fun _ => rfl, fun hh => absurd hh (by simp [noopResult])⟩
  have hcm : compactMessages fm am body cl = compactCore fm am body cl := by
    rw [compactMessages, if_neg h1, if_neg h2]
  rw [hcm]
  refine ⟨fun hh => absurd hh (by simp [compactCore]), fun _ => ?_⟩
  refine ⟨createLocalSummary fm am (coreLoop body cl).1,
    (coreLoop body cl).2.1 ++ coreRecent body, rfl, ?_⟩
  have hsplit : body.messages = coreOlder body ++ coreRecent body :=
    (List.take_append_drop _ _).symm
  have holder : msgsTokens (coreOlder body) =
      msgsTokens (coreLoop body cl).1 + msgsTokens (coreLoop body cl).2.1 := by
    conv_lhs => rw [show coreOlder body =
      (coreLoop body cl).1 ++ (coreLoop body cl).2.1 from
      (compactLoop_append _ _ _).symm]
    exact msgsTokens_append _ _
  show msgsTokens (Msg.mk "user".data
      (MsgContent.str (createLocalSummary fm am (coreLoop body cl).1))
      :: (coreLoop body cl).2.1 ++ coreRecent body) ≤ _
  have hout : msgsTokens (Msg.mk "user".data
      (MsgContent.str (createLocalSummary fm am (coreLoop body cl).1))
      :: (coreLoop body cl).2.1 ++ coreRecent body) =
      estimateTokens (createLocalSummary fm am (coreLoop body cl).1) +
        (msgsTokens (coreLoop body cl).2.1 + msgsTokens (coreRecent body)) := by
    simp [msgsTokens, compactMsgTokens, extractMessageText]
  rw [hout]
  conv_rhs => rw [hsplit, msgsTokens_append, holder]
  omega

/-- Witness for C1's amended bound at the counterexample body. -/
theorem compact_estimate_bound_witness :
    (compactMessages noMatches noMatches c1body 8192).compacted = true ∧
    ∃ s rest,
      (compactMessages noMatches noMatches c1body 8192).messages =
        Msg.mk "user".data (MsgContent.str s) :: rest ∧
      msgsTokens (compactMessages noMatches noMatches c1body 8192).messages ≤
        msgsTokens c1body.messages + estimateTokens s :=
  ⟨by decide,
   (compact_estimate_bound noMatches noMatches c1body 8192).2 (by decide)⟩

/-- Witness for C3 at the same concrete compacting body. -/
theorem compact_preserves_tail_witness :
    tailReserve < c1body.messages.length ∧
    (compactMessages noMatches noMatches c1body 8192).messages.drop
        ((compactMessages noMatches noMatches c1body 8192).messages.length -
          tailReserve) =
      c1body.messages.drop (c1body.messages.length - tailReserve) :=
  compact_preserves_tail noMatches noMatches c1body 8192 (by decide)

/-! ## C10: tool_result bulk is invisible to the compaction estimate -/

def Block.isToolResultOrImage : Block → Bool
  | .toolResult _ _ _ => true
  | .image => true
  | _ => false

/-- C10 concrete body: all conversational bulk sits in `tool_result`
blocks (13 × 100 tokens), which `checkContextLimit` counts
(1300 + 6900 = 8200 > 8192) but `extractMessageText` ignores (so
`compactMessages` sees 0 message tokens against a 63-token budget and does
nothing). -/
def c10body : ABody :=
  ⟨"featherless/WhiteRabbitNeo/WhiteRabbitNeo-V3-7B".data, none,
   List.replicate 13
     ⟨"user".data,
      MsgContent.blocks
        [Block.toolResult "t1".data none (List.replicate 400 'a')]⟩,
   some 6900, none, none, none, []⟩

set_option maxRecDepth 4000 in
/-- C10: a message whose blocks are all `tool_result` or `image` extracts to
the empty string (contributing 0 to the compaction budget), while
`checkContextLimit` does count `tool_result` content; consequently the
concrete `c10body` is judged over-limit by `checkContextLimit` yet returned
unchanged (`compacted = false`) by `compactMessages`. -/
theorem toolResult_bulk_invisible_to_compaction (role : Str)
    (bs : List Block) (h : ∀ b ∈ bs, b.isToolResultOrImage = true) :
    extractMessageText ⟨role, .blocks bs⟩ = [] ∧
    (checkContextLimit c10body).ok = false ∧
    (compactMessages noMatches noMatches c10body
        (getContextLimit c10body.model)).compacted = false ∧
    (compactMessages noMatches noMatches c10body
        (getContextLimit c10body.model)).messages = c10body.messages := by
  refine ⟨?_, by decide, by decide, by decide⟩
  have hnil : bs.filterMap
      (fun b => match b with | Block.text s => some s | _ => none) = [] := by
    rw [List.filterMap_eq_nil_iff]
    intro b hb
    have hb' := h b hb
    cases b <;> simp_all [Block.isToolResultOrImage]
  have hrw : extractMessageText ⟨role, MsgContent.blocks bs⟩ =
      List.intercalate ['\n'] (bs.filterMap
        (fun b => match b with | Block.text s => some s | _ => none)) := rfl
  rw [hrw, hnil]
  rfl

theorem toolResult_bulk_invisible_to_compaction_witness :
    extractMessageText ⟨"user".data,
        .blocks [Block.toolResult "x".data none "abcd".data, Block.image]⟩ =
      [] ∧
    (checkContextLimit c10body).ok = false ∧
    (compactMessages noMatches noMatches c10body
        (getContextLimit c10body.model)).compacted = false ∧
    (compactMessages noMatches noMatches c10body
        (getContextLimit c10body.model)).messages = c10body.messages :=
  toolResult_bulk_invisible_to_compaction "user".data
    [Block.toolResult "x".data none "abcd".data, Block.image] (by decide)

/-! ## Schema translator (`anthropicToOpenAI`, model-proxy-server.js:739-835) -/

/-- JS `x || d` for a numeric parameter where `0` is falsy
(`anthropicBody.temperature || 0.7`). -/
def jsOrRat (x : Option ℚ) (d : ℚ) : ℚ :=
  match x with
  | none => d
  | some t => if t = 0 then d else t

/-- An OpenAI-format message as built by `anthropicToOpenAI`.  Tool-result
entries carry `tool_call_id`/`name`; ordinary entries leave them `none`.
Image blocks ride along in the `images` side-channel field for
provider-specific handling. -/
structure OAIMsg where
  role : Str
  content : Str
  toolCallId : Option Str
  name : Option Str
  images : List Block
deriving DecidableEq

structure OAIRequest where
  model : Str
  messages : List OAIMsg
  max_tokens : Nat
  temperature : ℚ
  top_p : Option ℚ
  stream : Bool
  tools : Option (List ToolSpec)
deriving DecidableEq

/-- Conversion of one Anthropic message (model-proxy-server.js:758-808):
string content passes through; array content flattens `text` blocks (and a
stray `tool_use` as `[Tool: name]`) into a newline-joined string, collects
`image` blocks into the side channel, and appends each `tool_result` as its
own `role:"tool"` message directly after the carrying message. -/
def convertMsg (m : Msg) : List OAIMsg :=
  match m.content with
  | .str s => [⟨m.role, s, none, none, []⟩]
  | .blocks bs =>
      let textBlocks := bs.filterMap (fun b =>
        match b with
        | Block.text s => some s
        | Block.toolUse _ nm _ => some ("[Tool: ".data ++ nm ++ "]".data)
        | _ => none)
      let images := bs.filter (fun b =>
        match b with | Block.image => true | _ => false)
      let toolResults := bs.filterMap (fun b =>
        match b with
        | Block.toolResult tid nm c =>
            some (OAIMsg.mk "tool".data c (some tid)
              (some (jsOrStr nm "unknown".data)) [])
        | _ => none)
      OAIMsg.mk m.role (List.intercalate ['\n'] textBlocks) none none images
        :: toolResults

/-- `anthropicToOpenAI` (model-proxy-server.js:739-835).  The huge literal
instruction template of `injectToolsIntoPrompt` is abstracted as the
parameter `inject` (applied exactly when the source would inject); no claim
depends on its text. -/
def anthropicToOpenAI (inject : Str → List ToolSpec → Str) (body : ABody)
    (emulateTools : Bool) : OAIRequest :=
  let systemContent :=
    if emulateTools = true ∧ body.tools ≠ [] then
      inject (jsOrStr body.system []) body.tools
    else jsOrStr body.system []
  let sysMsgs :=
    if systemContent = [] then []
    else [OAIMsg.mk "system".data systemContent none none []]
  let msgs := sysMsgs ++ body.messages.flatMap convertMsg
  let modelLimit := getModelLimit body.model
  let requestedTokens := jsOrNat body.max_tokens 4096
  { model := body.model,
    messages := msgs,
    max_tokens := min requestedTokens modelLimit,
    temperature := jsOrRat body.temperature (7 / 10),
    top_p := body.top_p,
    stream := body.stream.getD false,
    tools := if emulateTools = false ∧ body.tools ≠ [] then some body.tools
             else none }

/-- A request asking the 4096-max-output WhiteRabbitNeo model for 8192
output tokens. -/
def c8body : ABody :=
  ⟨"featherless/WhiteRabbitNeo/WhiteRabbitNeo-V3-7B".data, none,
   [⟨"user".data, MsgContent.str "hi".data⟩], some 8192, none, none, none, []⟩

/-- C8: the emitted `max_tokens` equals
`min(requested-or-default, getModelLimit(model))`, hence never exceeds the
model's documented output limit; concretely a request for 8192 tokens
against WhiteRabbitNeo-V3-7B is silently lowered to 4096.  (The log line
accompanying the lowering is I/O and outside the pure model.) -/
theorem maxTokens_capped (inject : Str → List ToolSpec → Str) (body : ABody)
    (emulateTools : Bool) :
    (anthropicToOpenAI inject body emulateTools).max_tokens =
      min (jsOrNat body.max_tokens 4096) (getModelLimit body.model) ∧
    (anthropicToOpenAI inject body emulateTools).max_tokens ≤
      getModelLimit body.model ∧
    (anthropicToOpenAI inject c8body false).max_tokens = 4096 := by
  refine ⟨rfl, min_le_right _ _, ?_⟩
  show min (jsOrNat c8body.max_tokens 4096) (getModelLimit c8body.model) = 4096
  decide

/-! ## Featherless pre-upstream control flow
(`handleFeatherless`, model-proxy-server.js:1033-1090) -/

inductive FeatherlessOutcome
  | authError
  | contextLengthExceeded (body : ABody)
  | sendUpstream (body : ABody) (compacted : Bool)
deriving DecidableEq

/-- The decision `handleFeatherless` takes before any rate-limit wait or
upstream call: missing key → authentication error; an over-limit estimate
triggers exactly one `applyCompaction` pass; a still-failing re-check
terminates with `context_length_exceeded` carrying the once-compacted body;
otherwise the (possibly compacted) body goes upstream. -/
def featherlessPlan (fm am : Str → List Str) (apiKeySet : Bool)
    (body : ABody) : FeatherlessOutcome :=
  if apiKeySet = false then .authError
  else if (checkContextLimit body).ok then .sendUpstream body false
  else
    let cr := applyCompaction fm am body (getContextLimit body.model)
    if (checkContextLimit cr.body).ok then .sendUpstream cr.body cr.compacted
    else .contextLengthExceeded cr.body

/-- C7: when the re-estimate after the single compaction pass still exceeds
the context limit, the request terminates with the context-length error
carrying the once-compacted body — no upstream call is planned and no second
compaction pass exists in the control flow. -/
theorem featherless_single_pass (fm am : Str → List Str) (body : ABody)
    (h1 : (checkContextLimit body).ok = false)
    (h2 : (checkContextLimit
        (applyCompaction fm am body (getContextLimit body.model)).body).ok =
      false) :
    featherlessPlan fm am true body =
      FeatherlessOutcome.contextLengthExceeded
        (applyCompaction fm am body (getContextLimit body.model)).body ∧
    ∀ b c, featherlessPlan fm am true body ≠
      FeatherlessOutcome.sendUpstream b c := by
  have hp : featherlessPlan fm am true body =
      FeatherlessOutcome.contextLengthExceeded
        (applyCompaction fm am body (getContextLimit body.model)).body := by
    rw [featherlessPlan, if_neg (by simp), h1]
    simp only [Bool.false_eq_true, if_false]
    rw [h2]
    simp
  exact ⟨hp, fun b c => by rw [hp]; simp⟩

set_option maxRecDepth 4000 in
/-- Witness for C7: the `c10body` scenario (bulk in `tool_result` blocks)
fails the check, is left unchanged by compaction, fails the re-check, and so
terminates with the context-length outcome. -/
theorem featherless_single_pass_witness :
    featherlessPlan noMatches noMatches true c10body =
      FeatherlessOutcome.contextLengthExceeded
        (applyCompaction noMatches noMatches c10body
          (getContextLimit c10body.model)).body ∧
    ∀ b c, featherlessPlan noMatches noMatches true c10body ≠
      FeatherlessOutcome.sendUpstream b c :=
  featherless_single_pass noMatches noMatches c10body (by decide) (by decide)

/-! ## Tool-call emulation decoder
(`parseToolCalls`, model-proxy-server.js:333-358, and the emulation branch of
`openaiToAnthropic`, model-proxy-server.js:863-881).

The two regexes are modelled as explicit scanners with the same
leftmost-match, lazy-extension semantics:
extraction `/<tool_call>\s*(\{[\s\S]*?\})\s*<\/tool_call>/g` and
stripping  `/<tool_call>[\s\S]*?<\/tool_call>/g`. -/

/-- JS `\s` restricted to the ASCII whitespace characters. -/
def isWs (c : Char) : Bool :=
  c = ' ' || c = '\t' || c = '\n' || c = '\r' || c = '\x0b' || c = '\x0c'

def openTag : Str := "<tool_call>".data
def closeTag : Str := "</tool_call>".data

/-- The lazy interior `[\s\S]*?` of the extraction regex: consume characters
until the first `}` that is followed (after whitespace) by the closing tag;
return the interior and the text after the closing tag. -/
def scanInterior : Str → Option (Str × Str)
  | [] => none
  | c :: rest =>
      if c = '}' ∧ closeTag.isPrefixOf (rest.dropWhile isWs) then
        some ([], (rest.dropWhile isWs).drop closeTag.length)
      else
        match scanInterior rest with
        | some (int, after) => some (c :: int, after)
        | none => none

/-- Attempt the extraction regex anchored at the start of `s`; on success
return the captured `{…}` group and the input remaining after the match. -/
def matchToolCallAt (s : Str) : Option (Str × Str) :=
  if openTag.isPrefixOf s then
    match (s.drop openTag.length).dropWhile isWs with
    | '{' :: s3 =>
        match scanInterior s3 with
        | some (int, after) => some ('{' :: int ++ ['}'], after)
        | none => none
    | _ => none
  else none

def extractCallsF : Nat → Str → List Str
  | 0, _ => []
  | _ + 1, [] => []
  | n + 1, c :: rest =>
      match matchToolCallAt (c :: rest) with
      | some (cap, after) => cap :: extractCallsF n after
      | none => extractCallsF n rest

/-- The `regex.exec` loop of `parseToolCalls`: leftmost matches scanned left
to right, resuming after each match.  Fuel `s.length` always suffices
because every step consumes at least one character. -/
def extractCalls (s : Str) : List Str := extractCallsF s.length s

/-- Drop everything through the first occurrence of `tag`. -/
def dropThroughTag (tag : Str) : Str → Option Str
  | [] => none
  | c :: rest =>
      if tag.isPrefixOf (c :: rest) then some ((c :: rest).drop tag.length)
      else dropThroughTag tag rest

def stripCallsF : Nat → Str → Str
  | 0, s => s
  | _ + 1, [] => []
  | n + 1, c :: rest =>
      if openTag.isPrefixOf (c :: rest) then
        match dropThroughTag closeTag ((c :: rest).drop openTag.length) with
        | some after => stripCallsF n after
        | none => c :: rest
      else c :: stripCallsF n rest

/-- The cleanup `text.replace(/<tool_call>[\s\S]*?<\/tool_call>/g, '')`:
remove every lazily-matched delimited span.  An opening tag without any
later closing tag starts no match, and then no later position can match
either (a closing tag would have to begin with a later `<`), so the
remainder is kept verbatim. -/
def stripCalls (s : Str) : Str := stripCallsF s.length s

/-- JS `String.prototype.trim` over ASCII whitespace. -/
def trimStr (s : Str) : Str :=
  ((s.dropWhile isWs).reverse.dropWhile isWs).reverse

/-- One decoded call: the synthetic id (`call_${Date.now()}_${random}`,
modelled through the generator `genId` indexed by successful-parse order),
the tool name and the re-serialized arguments. -/
structure ToolCall where
  id : Str
  name : Str
  args : Str
deriving DecidableEq

/-- `parseToolCalls` (model-proxy-server.js:333-358).  `JSON.parse` composed
with the name/arguments projection is abstracted as the oracle `jparse`; a
span whose interior the oracle rejects is dropped (the source catches the
parse exception and logs), never fatal. -/
def parseToolCalls (genId : Nat → Str) (jparse : Str → Option (Str × Str))
    (text : Str) : List ToolCall × Str :=
  (((extractCalls text).filterMap jparse).enum.map
      (fun p => ⟨genId p.1, p.2.1, p.2.2⟩),
   trimStr (stripCalls text))

/-- The emulation branch of `openaiToAnthropic`
(model-proxy-server.js:863-881): remaining prose (if any) becomes one text
block ordered before the extracted `tool_use` blocks. -/
def emulatedAnthropicContent (genId : Nat → Str)
    (jparse : Str → Option (Str × Str)) (content : Str) : List Block :=
  (if (parseToolCalls genId jparse content).2 ≠ [] then
    [Block.text (parseToolCalls genId jparse content).2]
  else []) ++
    (parseToolCalls genId jparse content).1.map
      (fun c => Block.toolUse c.id c.name c.args)

/-! ### Scanner length and fuel lemmas -/

theorem length_dropWhile_le (p : Char → Bool) (l : Str) :
    (l.dropWhile p).length ≤ l.length :=
  (List.dropWhile_suffix p).length_le

theorem scanInterior_length : ∀ (s int after : Str),
    scanInterior s = some (int, after) → after.length < s.length := by
  intro s
  induction s with
  | nil => intro int after h; simp [scanInterior] at h
  | cons c rest ih =>
      intro int after h
      rw [scanInterior] at h
      split at h
      · simp only [Option.some.injEq, Prod.mk.injEq] at h
        have hafter : after = (rest.dropWhile isWs).drop closeTag.length :=
          h.2.symm
        subst hafter
        have h1 : ((rest.dropWhile isWs).drop closeTag.length).length ≤
            (rest.dropWhile isWs).length := by
          rw [List.length_drop]; omega
        have h2 : (rest.dropWhile isWs).length ≤ rest.length :=
          length_dropWhile_le _ _
        simp only [List.length_cons]
        omega
      · split at h
        · rename_i int' after' hrec
          simp only [Option.some.injEq, Prod.mk.injEq] at h
          obtain ⟨hint, hafter⟩ := h
          subst hafter
          have := ih int' after' hrec
          simp only [List.length_cons]
          omega
        · simp at h

theorem matchToolCallAt_length (s cap after : Str)
    (h : matchToolCallAt s = some (cap, after)) : after.length < s.length := by
  rw [matchToolCallAt] at h
  split at h
  · rename_i hpre
    have hlen : openTag.length ≤ s.length :=
      (List.isPrefixOf_iff_prefix.mp hpre).length_le
    have hdw : ((s.drop openTag.length).dropWhile isWs).length ≤
        s.length - openTag.length := by
      have h1 : ((s.drop openTag.length).dropWhile isWs).length ≤
          (s.drop openTag.length).length := length_dropWhile_le _ _
      rw [List.length_drop] at h1
      exact h1
    split at h
    · rename_i s3 heq
      split at h
      · rename_i int after' hrec
        simp only [Option.some.injEq, Prod.mk.injEq] at h
        obtain ⟨hcap, hafter⟩ := h
        subst hafter
        have hlt := scanInterior_length s3 int after' hrec
        have h3 : s3.length + 1 =
            ((s.drop openTag.length).dropWhile isWs).length := by
          rw [heq]; rfl
        have hot : openTag.length = 11 := rfl
        omega
      · simp at h
    · simp at h
  · simp at h

theorem dropThroughTag_length (tag : Str) (htag : tag ≠ []) :
    ∀ s after : Str, dropThroughTag tag s = some after →
      after.length + tag.length ≤ s.length := by
  intro s
  induction s with
  | nil => intro after h; simp [dropThroughTag] at h
  | cons c rest ih =>
      intro after h
      rw [dropThroughTag] at h
      split at h
      · rename_i hpre
        simp only [Option.some.injEq] at h
        subst h
        have hlen : tag.length ≤ (c :: rest).length :=
          (List.isPrefixOf_iff_prefix.mp hpre).length_le
        rw [List.length_drop]
        omega
      · have := ih after h
        simp only [List.length_cons]
        omega

theorem extractCallsF_congr : ∀ (n m : Nat) (s : Str),
    s.length ≤ n → s.length ≤ m → extractCallsF n s = extractCallsF m s := by
  intro n
  induction n with
  | zero =>
      intro m s hn _
      have hs : s = [] := List.length_eq_zero.mp (Nat.le_zero.mp hn)
      subst hs
      cases m <;> rfl
  | succ n ih =>
      intro m s hn hm
      cases s with
      | nil => cases m <;> rfl
      | cons c rest =>
          cases m with
          | zero => simp at hm
          | succ m' =>
              simp only [List.length_cons] at hn hm
              cases hmc : matchToolCallAt (c :: rest) with
              | some p =>
                  obtain ⟨cap, after⟩ := p
                  have hlt := matchToolCallAt_length _ _ _ hmc
                  simp only [List.length_cons] at hlt
                  simp only [extractCallsF, hmc]
                  exact congrArg (cap :: ·)
                    (ih m' after (by omega) (by omega))
              | none =>
                  simp only [extractCallsF, hmc]
                  exact ih m' rest (by omega) (by omega)

theorem stripCallsF_congr : ∀ (n m : Nat) (s : Str),
    s.length ≤ n → s.length ≤ m → stripCallsF n s = stripCallsF m s := by
  intro n
  induction n with
  | zero =>
      intro m s hn _
      have hs : s = [] := List.length_eq_zero.mp (Nat.le_zero.mp hn)
      subst hs
      cases m <;> rfl
  | succ n ih =>
      intro m s hn hm
      cases s with
      | nil => cases m <;> rfl
      | cons c rest =>
          cases m with
          | zero => simp at hm
          | succ m' =>
              simp only [List.length_cons] at hn hm
              by_cases hpre : openTag.isPrefixOf (c :: rest) = true
              · have hlen : openTag.length ≤ (c :: rest).length :=
                  (List.isPrefixOf_iff_prefix.mp hpre).length_le
                have hot : openTag.length = 11 := rfl
                simp only [stripCallsF, hpre, if_true]
                cases hd : dropThroughTag closeTag
                    ((c :: rest).drop openTag.length) with
                | some after =>
                    have hdl := dropThroughTag_length closeTag (by decide)
                      _ after hd
                    rw [List.length_drop] at hdl
                    simp only [List.length_cons] at hdl hlen
                    have hct : closeTag.length = 12 := rfl
                    exact ih m' after (by omega) (by omega)
                | none => rfl
              · simp only [stripCallsF, hpre, if_false, Bool.false_eq_true]
                exact congrArg (c :: ·) (ih m' rest (by omega) (by omega))

/-! ### Scanner behaviour on decomposed inputs -/

theorem isPrefixOf_cons_cons (a b : Char) (as bs : Str) :
    (a :: as).isPrefixOf (b :: bs) = (a == b && as.isPrefixOf bs) := rfl

theorem dropWhile_ws_append (w : Str) (t : Str)
    (hw : ∀ c ∈ w, isWs c = true) :
    (w ++ t).dropWhile isWs = t.dropWhile isWs := by
  induction w with
  | nil => rfl
  | cons c w' ih =>
      rw [List.cons_append, List.dropWhile_cons, hw c (List.mem_cons_self c w')]
      simp only [if_true]
      exact ih (fun d hd => hw d (List.mem_cons_of_mem c hd))

/-- Inside the JSON interior no premature `}` can complete a match: after
whitespace the scanner sees either a non-`<` character of the interior or
the `}` that ends the object, never the `<` that `</tool_call>` needs. -/
theorem closeTag_not_prefix_inside (u : Str) (hu : '<' ∉ u) (v : Str) :
    closeTag.isPrefixOf ((u ++ ('}' :: v)).dropWhile isWs) = false := by
  induction u with
  | nil => rfl
  | cons a u' ih =>
      have ha : a ≠ '<' := by
        intro hh
        subst hh
        exact hu (List.mem_cons_self _ _)
      rw [List.cons_append, List.dropWhile_cons]
      by_cases hwa : isWs a = true
      · rw [hwa]
        simp only [if_true]
        exact ih (fun hc => hu (List.mem_cons_of_mem a hc))
      · rw [Bool.not_eq_true] at hwa
        rw [hwa]
        simp only [Bool.false_eq_true, if_false]
        rw [show closeTag = '<' :: "/tool_call>".data from rfl,
          isPrefixOf_cons_cons,
          show ('<' == a) = false from
            beq_eq_false_iff_ne.mpr (fun hh => ha hh.symm),
          Bool.false_and]

theorem scanInterior_through (j : Str) (hj : '<' ∉ j) (w : Str)
    (hw : ∀ c ∈ w, isWs c = true) (rest : Str) :
    scanInterior (j ++ ('}' :: (w ++ (closeTag ++ rest)))) = some (j, rest) := by
  induction j with
  | nil =>
      rw [List.nil_append, scanInterior]
      have hdw : (w ++ (closeTag ++ rest)).dropWhile isWs = closeTag ++ rest := by
        rw [dropWhile_ws_append w _ hw]
        rfl
      rw [if_pos ⟨rfl, by rw [hdw]; exact isPrefixOf_append_self _ _⟩, hdw,
        List.drop_left]
  | cons a j' ih =>
      have hj' : '<' ∉ j' := fun hc => hj (List.mem_cons_of_mem a hc)
      rw [List.cons_append, scanInterior, if_neg ?hcond]
      case hcond =>
        rintro ⟨-, h2⟩
        rw [closeTag_not_prefix_inside j' hj' (w ++ (closeTag ++ rest))] at h2
        simp at h2
      rw [ih hj']

theorem matchToolCallAt_none (s : Str) (h : openTag.isPrefixOf s = false) :
    matchToolCallAt s = none := by
  simp [matchToolCallAt, h]

theorem matchToolCallAt_block (w j w' rest : Str)
    (hw : ∀ c ∈ w, isWs c = true) (hw' : ∀ c ∈ w', isWs c = true)
    (hj : '<' ∉ j) :
    matchToolCallAt
        (openTag ++ (w ++ ('{' :: (j ++ ('}' :: (w' ++ (closeTag ++ rest))))))) =
      some ('{' :: (j ++ ['}']), rest) := by
  rw [matchToolCallAt, if_pos (isPrefixOf_append_self _ _), List.drop_left,
    dropWhile_ws_append w _ hw]
  show (match scanInterior (j ++ ('}' :: (w' ++ (closeTag ++ rest)))) with
    | some (int, after) => some ('{' :: int ++ ['}'], after)
    | none => none) = some ('{' :: (j ++ ['}']), rest)
  rw [scanInterior_through j hj w' hw' rest]
  rfl

theorem extractCalls_cons_match (s cap after : Str) (hne : s ≠ [])
    (hm : matchToolCallAt s = some (cap, after)) :
    extractCalls s = cap :: extractCalls after := by
  obtain ⟨c, rest, rfl⟩ := List.exists_cons_of_ne_nil hne
  have hlt := matchToolCallAt_length _ _ _ hm
  simp only [List.length_cons] at hlt
  rw [extractCalls]
  simp only [List.length_cons]
  simp only [extractCallsF, hm]
  rw [extractCallsF_congr rest.length after.length after (by omega) le_rfl]
  rfl

theorem extractCalls_append_of_no_tag (pre s : Str)
    (h : ∀ i, i < pre.length → openTag.isPrefixOf (pre.drop i ++ s) = false) :
    extractCalls (pre ++ s) = extractCalls s := by
  induction pre with
  | nil => rw [List.nil_append]
  | cons c pre' ih =>
      have h0 : openTag.isPrefixOf (c :: (pre' ++ s)) = false := by
        have := h 0 (by simp)
        simpa using this
      rw [List.cons_append, extractCalls]
      simp only [List.length_cons]
      simp only [extractCallsF, matchToolCallAt_none _ h0]
      rw [extractCallsF_congr (pre' ++ s).length (pre' ++ s).length (pre' ++ s)
        le_rfl le_rfl]
      show extractCalls (pre' ++ s) = _
      exact ih (fun i hi => by
        have := h (i + 1) (by simp only [List.length_cons]; omega)
        simpa using this)

theorem extractCalls_of_no_tag (s : Str)
    (h : ∀ i, i < s.length → openTag.isPrefixOf (s.drop i) = false) :
    extractCalls s = [] := by
  have := extractCalls_append_of_no_tag s []
    (by intro i hi; simpa using h i hi)
  simpa using this

theorem dropThroughTag_no_lt (u : Str) (hu : '<' ∉ u) (rest : Str) :
    dropThroughTag closeTag (u ++ (closeTag ++ rest)) = some rest := by
  induction u with
  | nil =>
      rw [List.nil_append]
      have hsplit : closeTag ++ rest = '<' :: ("/tool_call>".data ++ rest) :=
        rfl
      have hcond : closeTag.isPrefixOf ('<' :: ("/tool_call>".data ++ rest)) =
          true := by
        rw [← hsplit]
        exact isPrefixOf_append_self _ _
      rw [hsplit, dropThroughTag, if_pos hcond, ← hsplit, List.drop_left]
  | cons a u' ih =>
      have ha : a ≠ '<' := by
        intro hh
        subst hh
        exact hu (List.mem_cons_self _ _)
      rw [List.cons_append, dropThroughTag, if_neg ?hcond]
      case hcond =>
        rw [show closeTag = '<' :: "/tool_call>".data from rfl,
          isPrefixOf_cons_cons,
          show ('<' == a) = false from
            beq_eq_false_iff_ne.mpr (fun hh => ha hh.symm),
          Bool.false_and]
        simp
      exact ih (fun hc => hu (List.mem_cons_of_mem a hc))

theorem stripCalls_append_of_no_tag (pre s : Str)
    (h : ∀ i, i < pre.length → openTag.isPrefixOf (pre.drop i ++ s) = false) :
    stripCalls (pre ++ s) = pre ++ stripCalls s := by
  induction pre with
  | nil => rw [List.nil_append, List.nil_append]
  | cons c pre' ih =>
      have h0 : openTag.isPrefixOf (c :: (pre' ++ s)) = false := by
        have := h 0 (by simp)
        simpa using this
      rw [List.cons_append, stripCalls]
      simp only [List.length_cons]
      simp only [stripCallsF, h0, Bool.false_eq_true, if_false]
      rw [stripCallsF_congr (pre' ++ s).length (pre' ++ s).length (pre' ++ s)
        le_rfl le_rfl]
      show c :: stripCalls (pre' ++ s) = _
      rw [List.cons_append]
      exact congrArg (c :: ·) (ih (fun i hi => by
        have := h (i + 1) (by simp only [List.length_cons]; omega)
        simpa using this))

theorem stripCalls_of_no_tag (s : Str)
    (h : ∀ i, i < s.length → openTag.isPrefixOf (s.drop i) = false) :
    stripCalls s = s := by
  have := stripCalls_append_of_no_tag s []
    (by intro i hi; simpa using h i hi)
  rw [show stripCalls ([] : Str) = [] from rfl] at this
  simpa using this

theorem stripCalls_block (w j w' rest : Str)
    (hw : ∀ c ∈ w, isWs c = true) (hw' : ∀ c ∈ w', isWs c = true)
    (hj : '<' ∉ j) :
    stripCalls
        (openTag ++ (w ++ ('{' :: (j ++ ('}' :: (w' ++ (closeTag ++ rest))))))) =
      stripCalls rest := by
  have hXeq : w ++ ('{' :: (j ++ ('}' :: (w' ++ (closeTag ++ rest))))) =
      (w ++ ('{' :: (j ++ ('}' :: w')))) ++ (closeTag ++ rest) := by
    simp [List.append_assoc]
  have hu : '<' ∉ w ++ ('{' :: (j ++ ('}' :: w'))) := by
    intro hc
    simp only [List.mem_append, List.mem_cons] at hc
    rcases hc with hc | hc | hc | hc | hc
    · have := hw _ hc
      simp [isWs] at this
    · exact absurd hc (by decide)
    · exact hj hc
    · exact absurd hc (by decide)
    · have := hw' _ hc
      simp [isWs] at this
  have hsplit : openTag ++ (w ++ ('{' :: (j ++ ('}' :: (w' ++ (closeTag ++ rest)))))) =
      '<' :: ("tool_call>".data ++
        (w ++ ('{' :: (j ++ ('}' :: (w' ++ (closeTag ++ rest))))))) := rfl
  rw [stripCalls, hsplit]
  simp only [List.length_cons]
  have hpre : openTag.isPrefixOf ('<' :: ("tool_call>".data ++
      (w ++ ('{' :: (j ++ ('}' :: (w' ++ (closeTag ++ rest)))))))) = true := by
    rw [← hsplit]
    exact isPrefixOf_append_self _ _
  simp only [stripCallsF, hpre, if_true]
  have hdrop : ('<' :: ("tool_call>".data ++
      (w ++ ('{' :: (j ++ ('}' :: (w' ++ (closeTag ++ rest)))))))).drop
        openTag.length =
      w ++ ('{' :: (j ++ ('}' :: (w' ++ (closeTag ++ rest))))) := by
    rw [← hsplit]
    exact List.drop_left _ _
  have hD : dropThroughTag closeTag
      (w ++ ('{' :: (j ++ ('}' :: (w' ++ (closeTag ++ rest)))))) = some rest := by
    rw [hXeq]
    exact dropThroughTag_no_lt _ hu rest
  rw [hdrop, hD]
  have hrl : rest.length ≤
      ("tool_call>".data ++
        (w ++ ('{' :: (j ++ ('}' :: (w' ++ (closeTag ++ rest))))))).length := by
    simp only [List.length_append, List.length_cons]
    omega
  exact stripCallsF_congr _ rest.length rest hrl le_rfl

/-- A standalone well-formed delimited block
`<tool_call> { interior } </tool_call>` with surrounding whitespace runs. -/
def tcBlockOnly (w j w' : Str) : Str :=
  openTag ++ (w ++ ('{' :: (j ++ ('}' :: (w' ++ closeTag)))))

theorem tcBlock_append (w j w' t : Str) :
    tcBlockOnly w j w' ++ t =
      openTag ++ (w ++ ('{' :: (j ++ ('}' :: (w' ++ (closeTag ++ t)))))) := by
  simp [tcBlockOnly, List.append_assoc]

theorem openTag_append_ne_nil (x : Str) : openTag ++ x ≠ ([] : Str) := by
  rw [show openTag = '<' :: "tool_call>".data from rfl]
  simp

/-- C4: on a text that is exactly `pre · block1 · mid · block2 · post` — the
blocks well formed (whitespace runs around a brace-delimited interior free of
`<`), the non-block segments starting no `<tool_call>` occurrence — the
decoder with a parse oracle accepting both interiors yields exactly two tool
calls with ids `genId 0 ≠ genId 1`, strips both delimited spans completely
(the visible text is the trimmed concatenation of the non-block segments),
and orders the remaining prose before the `tool_use` blocks; with an oracle
rejecting the first interior, that block is dropped (one call, same visible
text) and nothing fails. -/
theorem parseToolCalls_two_blocks
    (genId : Nat → Str) (jpA jpB : Str → Option (Str × Str))
    (hinj : Function.Injective genId)
    (pre w1 j1 w2 mid w3 j2 w4 post : Str) (n1 a1 n2 a2 : Str)
    (hw1 : ∀ c ∈ w1, isWs c = true) (hw2 : ∀ c ∈ w2, isWs c = true)
    (hw3 : ∀ c ∈ w3, isWs c = true) (hw4 : ∀ c ∈ w4, isWs c = true)
    (hj1 : '<' ∉ j1) (hj2 : '<' ∉ j2)
    (hpre : ∀ i, i < pre.length → openTag.isPrefixOf (pre.drop i ++
      (tcBlockOnly w1 j1 w2 ++ (mid ++ (tcBlockOnly w3 j2 w4 ++ post)))) =
      false)
    (hmid : ∀ i, i < mid.length → openTag.isPrefixOf (mid.drop i ++
      (tcBlockOnly w3 j2 w4 ++ post)) = false)
    (hpost : ∀ i, i < post.length → openTag.isPrefixOf (post.drop i) = false)
    (hA1 : jpA ('{' :: (j1 ++ ['}'])) = some (n1, a1))
    (hA2 : jpA ('{' :: (j2 ++ ['}'])) = some (n2, a2))
    (hB1 : jpB ('{' :: (j1 ++ ['}'])) = none)
    (hB2 : jpB ('{' :: (j2 ++ ['}'])) = some (n2, a2)) :
    (parseToolCalls genId jpA (pre ++ (tcBlockOnly w1 j1 w2 ++
        (mid ++ (tcBlockOnly w3 j2 w4 ++ post))))).1 =
      [⟨genId 0, n1, a1⟩, ⟨genId 1, n2, a2⟩] ∧
    genId 0 ≠ genId 1 ∧
    (parseToolCalls genId jpA (pre ++ (tcBlockOnly w1 j1 w2 ++
        (mid ++ (tcBlockOnly w3 j2 w4 ++ post))))).2 =
      trimStr (pre ++ (mid ++ post)) ∧
    emulatedAnthropicContent genId jpA (pre ++ (tcBlockOnly w1 j1 w2 ++
        (mid ++ (tcBlockOnly w3 j2 w4 ++ post)))) =
      (if trimStr (pre ++ (mid ++ post)) ≠ [] then
        [Block.text (trimStr (pre ++ (mid ++ post)))]
      else []) ++
        [Block.toolUse (genId 0) n1 a1, Block.toolUse (genId 1) n2 a2] ∧
    (parseToolCalls genId jpB (pre ++ (tcBlockOnly w1 j1 w2 ++
        (mid ++ (tcBlockOnly w3 j2 w4 ++ post))))).1 =
      [⟨genId 0, n2, a2⟩] ∧
    (parseToolCalls genId jpB (pre ++ (tcBlockOnly w1 j1 w2 ++
        (mid ++ (tcBlockOnly w3 j2 w4 ++ post))))).2 =
      trimStr (pre ++ (mid ++ post)) := by
  have e2 : tcBlockOnly w1 j1 w2 ++ (mid ++ (tcBlockOnly w3 j2 w4 ++ post)) =
      openTag ++ (w1 ++ ('{' :: (j1 ++ ('}' :: (w2 ++ (closeTag ++
        (mid ++ (tcBlockOnly w3 j2 w4 ++ post)))))))) :=
    tcBlock_append w1 j1 w2 _
  have e5 : tcBlockOnly w3 j2 w4 ++ post =
      openTag ++ (w3 ++ ('{' :: (j2 ++ ('}' :: (w4 ++ (closeTag ++ post)))))) :=
    tcBlock_append w3 j2 w4 post
  have hextract : extractCalls (pre ++ (tcBlockOnly w1 j1 w2 ++
      (mid ++ (tcBlockOnly w3 j2 w4 ++ post)))) =
      [('{' :: (j1 ++ ['}'])), ('{' :: (j2 ++ ['}']))] := by
    rw [extractCalls_append_of_no_tag _ _ hpre, e2,
      extractCalls_cons_match _ _ _ (openTag_append_ne_nil _)
        (matchToolCallAt_block w1 j1 w2 _ hw1 hw2 hj1),
      extractCalls_append_of_no_tag _ _ hmid, e5,
      extractCalls_cons_match _ _ _ (openTag_append_ne_nil _)
        (matchToolCallAt_block w3 j2 w4 post hw3 hw4 hj2),
      extractCalls_of_no_tag post hpost]
  have hstrip : stripCalls (pre ++ (tcBlockOnly w1 j1 w2 ++
      (mid ++ (tcBlockOnly w3 j2 w4 ++ post)))) = pre ++ (mid ++ post) := by
    rw [stripCalls_append_of_no_tag _ _ hpre, e2,
      stripCalls_block w1 j1 w2 _ hw1 hw2 hj1,
      stripCalls_append_of_no_tag _ _ hmid, e5,
      stripCalls_block w3 j2 w4 post hw3 hw4 hj2,
      stripCalls_of_no_tag post hpost]
  have hPA1 : (parseToolCalls genId jpA (pre ++ (tcBlockOnly w1 j1 w2 ++
      (mid ++ (tcBlockOnly w3 j2 w4 ++ post))))).1 =
      [⟨genId 0, n1, a1⟩, ⟨genId 1, n2, a2⟩] := by
    show ((extractCalls (pre ++ (tcBlockOnly w1 j1 w2 ++
      (mid ++ (tcBlockOnly w3 j2 w4 ++ post))))).filterMap jpA).enum.map _ = _
    rw [hextract]
    simp only [List.filterMap_cons, hA1, hA2, List.filterMap_nil]
    rfl
  have hPA2 : (parseToolCalls genId jpA (pre ++ (tcBlockOnly w1 j1 w2 ++
      (mid ++ (tcBlockOnly w3 j2 w4 ++ post))))).2 =
      trimStr (pre ++ (mid ++ post)) := by
    show trimStr (stripCalls (pre ++ (tcBlockOnly w1 j1 w2 ++
      (mid ++ (tcBlockOnly w3 j2 w4 ++ post))))) = _
    rw [hstrip]
  have hPB1 : (parseToolCalls genId jpB (pre ++ (tcBlockOnly w1 j1 w2 ++
      (mid ++ (tcBlockOnly w3 j2 w4 ++ post))))).1 = [⟨genId 0, n2, a2⟩] := by
    show ((extractCalls (pre ++ (tcBlockOnly w1 j1 w2 ++
      (mid ++ (tcBlockOnly w3 j2 w4 ++ post))))).filterMap jpB).enum.map _ = _
    rw [hextract]
    simp only [List.filterMap_cons, hB1, hB2, List.filterMap_nil]
    rfl
  have hPB2 : (parseToolCalls genId jpB (pre ++ (tcBlockOnly w1 j1 w2 ++
      (mid ++ (tcBlockOnly w3 j2 w4 ++ post))))).2 =
      trimStr (pre ++ (mid ++ post)) := by
    show trimStr (stripCalls (pre ++ (tcBlockOnly w1 j1 w2 ++
      (mid ++ (tcBlockOnly w3 j2 w4 ++ post))))) = _
    rw [hstrip]
  have hid : genId 0 ≠ genId 1 := fun hh => absurd (hinj hh) (by decide)
  refine ⟨hPA1, hid, hPA2, ?_, hPB1, hPB2⟩
  show (if (parseToolCalls genId jpA (pre ++ (tcBlockOnly w1 j1 w2 ++
      (mid ++ (tcBlockOnly w3 j2 w4 ++ post))))).2 ≠ [] then
    [Block.text (parseToolCalls genId jpA (pre ++ (tcBlockOnly w1 j1 w2 ++
      (mid ++ (tcBlockOnly w3 j2 w4 ++ post))))).2]
  else []) ++
    (parseToolCalls genId jpA (pre ++ (tcBlockOnly w1 j1 w2 ++
      (mid ++ (tcBlockOnly w3 j2 w4 ++ post))))).1.map
      (fun c => Block.toolUse c.id c.name c.args) = _
  rw [hPA1, hPA2]
  rfl

/-- Concrete id generator for the C4 witness (distinct outputs). -/
def wGen : Nat → Str := fun n => List.replicate (n + 1) 'i'

theorem wGen_injective : Function.Injective wGen := by
  intro a b hh
  have := congrArg List.length hh
  simpa [wGen] using this

/-- Concrete parse oracle accepting both witness interiors. -/
def wJpA : Str → Option (Str × Str) := fun s =>
  if s = '{' :: ("alpha".data ++ ['}']) then some ("a1".data, "x".data)
  else if s = '{' :: ("beta".data ++ ['}']) then some ("b2".data, "y".data)
  else none

/-- Concrete parse oracle rejecting the first witness interior. -/
def wJpB : Str → Option (Str × Str) := fun s =>
  if s = '{' :: ("beta".data ++ ['}']) then some ("b2".data, "y".data)
  else none

def wText : Str :=
  "Hi ".data ++ (tcBlockOnly [] "alpha".data [] ++
    (" mid ".data ++ (tcBlockOnly [' '] "beta".data ['\n'] ++ " done".data)))

def wVisible : Str := "Hi ".data ++ (" mid ".data ++ " done".data)

theorem parseToolCalls_two_blocks_witness :
    (parseToolCalls wGen wJpA wText).1 =
      [⟨wGen 0, "a1".data, "x".data⟩, ⟨wGen 1, "b2".data, "y".data⟩] ∧
    wGen 0 ≠ wGen 1 ∧
    (parseToolCalls wGen wJpA wText).2 = trimStr wVisible ∧
    emulatedAnthropicContent wGen wJpA wText =
      (if trimStr wVisible ≠ [] then [Block.text (trimStr wVisible)]
       else []) ++
        [Block.toolUse (wGen 0) "a1".data "x".data,
         Block.toolUse (wGen 1) "b2".data "y".data] ∧
    (parseToolCalls wGen wJpB wText).1 = [⟨wGen 0, "b2".data, "y".data⟩] ∧
    (parseToolCalls wGen wJpB wText).2 = trimStr wVisible :=
  parseToolCalls_two_blocks wGen wJpA wJpB wGen_injective
    "Hi ".data [] "alpha".data [] " mid ".data [' '] "beta".data ['\n']
    " done".data "a1".data "x".data "b2".data "y".data
    (by decide) (by decide) (by decide) (by decide) (by decide) (by decide)
    (by decide) (by decide) (by decide)
    (by decide) (by decide) (by decide) (by decide)

end Clauded
